import Mathlib

/-!
Shallow embedding of the `warp_form_method` crate (src/lib.rs).

The body of a request is modelled as a `List Nat` of bytes.  The core of
the filter, `parse_method_in_first_field`, peeks at most `MAX_LEN` bytes of the
body, decodes them as UTF-8, splits on the delimiters `=` (0x3D) and
`&` (0x26), and checks that the first field is named `_method` with a value
parsing as an HTTP method (`http::Method::try_from`).

Splitting is performed here on the raw bytes: `=` and `&` are ASCII bytes,
and in valid UTF-8 an ASCII byte only ever occurs as a standalone code
point, so splitting the decoded string on those characters produces exactly
the byte segments between occurrences of 0x3D and 0x26, and string equality
of the segments is byte equality.  The code only splits after
`std::str::from_utf8` succeeds, which is mirrored by guarding the split
with `utf8Valid`.
-/

namespace WarpFormMethod

/-- Bytes of an ASCII string literal (for ASCII the UTF-8 bytes are the
code points). -/
def ascii (s : String) : List Nat :=
  s.data.map Char.toNat

/-- The delimiters of the split predicate in the source (equality with
`=` or `&`): `=` is byte 0x3D and `&` is byte 0x26. -/
def isDelim (b : Nat) : Bool :=
  b = 0x3D || b = 0x26

/-- A UTF-8 continuation byte, 0x80 ..= 0xBF. -/
def isCont (b : Nat) : Bool :=
  0x80 ≤ b && b ≤ 0xBF

/-- UTF-8 validity of a byte sequence, mirroring the validation performed
by `std::str::from_utf8` (Rust std `run_utf8_validation`): ASCII bytes
stand alone; 2-byte sequences start 0xC2 ..= 0xDF; 3-byte sequences start
0xE0 ..= 0xEF with the second byte restricted for 0xE0 (no overlong) and
0xED (no surrogates); 4-byte sequences start 0xF0 ..= 0xF4 with the second
byte restricted for 0xF0 and 0xF4 (code points up to 0x10FFFF). -/
def utf8Valid : List Nat → Bool
  | [] => true
  | b :: rest =>
    if b < 0x80 then
      utf8Valid rest
    else if 0xC2 ≤ b && b ≤ 0xDF then
      match rest with
      | c1 :: rest2 => isCont c1 && utf8Valid rest2
      | [] => false
    else if 0xE0 ≤ b && b ≤ 0xEF then
      match rest with
      | c1 :: c2 :: rest2 =>
        (if b = 0xE0 then 0xA0 ≤ c1 && c1 ≤ 0xBF
         else if b = 0xED then 0x80 ≤ c1 && c1 ≤ 0x9F
         else isCont c1) && isCont c2 && utf8Valid rest2
      | _ => false
    else if 0xF0 ≤ b && b ≤ 0xF4 then
      match rest with
      | c1 :: c2 :: c3 :: rest2 =>
        (if b = 0xF0 then 0x90 ≤ c1 && c1 ≤ 0xBF
         else if b = 0xF4 then 0x80 ≤ c1 && c1 ≤ 0x8F
         else isCont c1) && isCont c2 && isCont c3 && utf8Valid rest2
      | _ => false
    else
      false

/-- `str::split` on the delimiter predicate, at the byte
level: the (possibly empty) segments between delimiter occurrences.  Like
Rust `split`, it always yields at least one segment. -/
def splitOnDelims : List Nat → List (List Nat)
  | [] => [[]]
  | b :: rest =>
    if isDelim b then
      [] :: splitOnDelims rest
    else
      match splitOnDelims rest with
      | [] => [[b]]
      | s :: ss => (b :: s) :: ss

/-- `warp::http::Method` (the `http` crate): the nine standard verbs plus
extension methods carrying their exact token bytes.  Equality is
structural, as in the crate: an extension method never equals a standard
verb, and two extension methods are equal only on identical bytes. -/
inductive Method where
  | GET
  | POST
  | PUT
  | PATCH
  | DELETE
  | HEAD
  | OPTIONS
  | CONNECT
  | TRACE
  | extensionM (bytes : List Nat)
deriving DecidableEq, Repr

/-- The method token character table of the `http` crate (`METHOD_CHARS`): the
RFC 7230 `tchar` set — `!`, `#$%&`, `*+-.`, digits, uppercase letters,
`^_` and backquote, lowercase letters, `|`, `~`. -/
def isMethodChar (b : Nat) : Bool :=
  b = 0x21 || (0x23 ≤ b && b ≤ 0x27) || b = 0x2A || b = 0x2B ||
  b = 0x2D || b = 0x2E || (0x30 ≤ b && b ≤ 0x39) ||
  (0x41 ≤ b && b ≤ 0x5A) || (0x5E ≤ b && b ≤ 0x60) ||
  (0x61 ≤ b && b ≤ 0x7A) || b = 0x7C || b = 0x7E

/-- The extension-method constructor of the `http` crate: any nonempty sequence
of valid token characters is accepted (the crate never fails on length,
long tokens merely switch to the allocated representation). -/
def extensionMethod (src : List Nat) : Option Method :=
  if src.length = 0 then none
  else if src.all isMethodChar then some (Method.extensionM src)
  else none

/-- `http::Method::try_from` on the bytes of a string: exact
(case-sensitive) match against the nine standard verbs, otherwise an
extension method when the bytes form a valid token, otherwise failure.
The crate dispatches on length first and compares bytes within each
length arm; comparing against all nine byte strings in turn is
equivalent, since tokens of different lengths never compare equal. -/
def Method.tryFrom (src : List Nat) : Option Method :=
  if src = ascii "GET" then some Method.GET
  else if src = ascii "PUT" then some Method.PUT
  else if src = ascii "POST" then some Method.POST
  else if src = ascii "HEAD" then some Method.HEAD
  else if src = ascii "PATCH" then some Method.PATCH
  else if src = ascii "TRACE" then some Method.TRACE
  else if src = ascii "DELETE" then some Method.DELETE
  else if src = ascii "OPTIONS" then some Method.OPTIONS
  else if src = ascii "CONNECT" then some Method.CONNECT
  else extensionMethod src

/-- `const MIN_LEN: usize = "_method=GET".len();` — 11. -/
def MIN_LEN : Nat := (ascii "_method=GET").length

/-- `const MAX_LEN: usize = "_method=DELETE".len();` — 14. -/
def MAX_LEN : Nat := (ascii "_method=DELETE").length

/-- `fn parse_method_in_first_field(mut body: impl Buf) -> Option<Method>`:
reject bodies shorter than `MIN_LEN`; copy `min(remaining, MAX_LEN)` bytes
into the peek buffer; decode as UTF-8 (failure is absorbed by `.ok()?`);
split on `=`/`&`, take the first two segments as name and value; succeed
only when the name is `_method` and the value parses as an HTTP method. -/
def parse_method_in_first_field (body : List Nat) : Option Method :=
  if body.length < MIN_LEN then
    none
  else
    let peek_buffer := body.take (min body.length MAX_LEN)
    if utf8Valid peek_buffer then
      match (splitOnDelims peek_buffer).take 2 with
      | [name, value] =>
        if name = ascii "_method" then Method.tryFrom value else none
      | _ => none
    else
      none

/-- `warp::reject()` produces a generic "not found / not applicable"
rejection, which warp routing treats as "try another route", not as a
hard error; it is the only rejection this filter ever produces. -/
inductive Rejection where
  | notApplicable
deriving DecidableEq, Repr

/-- The decision stage of `form_method(method)` once the `POST` and
content-type gates have passed and the body has been aggregated: run the
inspector, then `future::ok(())` when the parsed method equals the target
and `future::err(warp::reject())` in every other case. -/
def form_method (method : Method) (body : List Nat) : Except Rejection Unit :=
  match parse_method_in_first_field body with
  | some fm => if fm = method then Except.ok () else Except.error Rejection.notApplicable
  | none => Except.error Rejection.notApplicable

instance : DecidableEq (Except Rejection Unit) := fun a b =>
  match a, b with
  | Except.ok (), Except.ok () => isTrue rfl
  | Except.error Rejection.notApplicable, Except.error Rejection.notApplicable => isTrue rfl
  | Except.ok (), Except.error _ => isFalse (fun h => Except.noConfusion h)
  | Except.error _, Except.ok () => isFalse (fun h => Except.noConfusion h)

/-- `Buf::copy_to_slice` into a buffer of `n` bytes: panics (modelled as
`none`) when fewer than `n` bytes remain, otherwise yields the first `n`
bytes. -/
def copy_to_slice (body : List Nat) (n : Nat) : Option (List Nat) :=
  if n ≤ body.length then some (body.take n) else none

/-- `parse_method_in_first_field` with the panic of `copy_to_slice` made
explicit: the outer `none` marks the panic, `some r` a normal return of
`r`. -/
def parseChecked (body : List Nat) : Option (Option Method) :=
  if body.length < MIN_LEN then
    some none
  else
    match copy_to_slice body (min body.length MAX_LEN) with
    | none => none
    | some peek_buffer =>
      some
        (if utf8Valid peek_buffer then
          match (splitOnDelims peek_buffer).take 2 with
          | [name, value] =>
            if name = ascii "_method" then Method.tryFrom value else none
          | _ => none
        else
          none)

/-- The name of the method field, as bytes. -/
def fmBytes : List Nat := ascii "_method"

/-- The token bytes of each method, as they appear on the wire. -/
def stdToken : Method → List Nat
  | Method.GET => ascii "GET"
  | Method.POST => ascii "POST"
  | Method.PUT => ascii "PUT"
  | Method.PATCH => ascii "PATCH"
  | Method.DELETE => ascii "DELETE"
  | Method.HEAD => ascii "HEAD"
  | Method.OPTIONS => ascii "OPTIONS"
  | Method.CONNECT => ascii "CONNECT"
  | Method.TRACE => ascii "TRACE"
  | Method.extensionM bs => bs

/-- The standard methods whose token is at most 6 bytes, so that
`_method=` followed by the token fits inside the `MAX_LEN` peek window.
OPTIONS and CONNECT (7 bytes) are excluded: `_method=OPTIONS` and
`_method=CONNECT` are 15 bytes, one more than `MAX_LEN`. -/
def shortStd : List Method :=
  [Method.GET, Method.POST, Method.PUT, Method.PATCH,
   Method.DELETE, Method.HEAD, Method.TRACE]

theorem splitOnDelims_no_delim (l : List Nat) (h : ∀ x ∈ l, isDelim x = false) :
    splitOnDelims l = [l] := by
  induction l with
  | nil => rfl
  | cons b rest ih =>
    have hb : isDelim b = false := h b (by simp)
    have ih2 := ih (fun x hx => h x (by simp [hx]))
    simp only [splitOnDelims, hb, Bool.false_eq_true, if_false, ih2]

theorem splitOnDelims_append_delim (a : List Nat) (d : Nat) (z : List Nat)
    (ha : ∀ x ∈ a, isDelim x = false) (hd : isDelim d = true) :
    splitOnDelims (a ++ d :: z) = a :: splitOnDelims z := by
  induction a with
  | nil => simp [splitOnDelims, hd]
  | cons b rest ih =>
    have hb : isDelim b = false := ha b (by simp)
    have ih2 := ih (fun x hx => ha x (by simp [hx]))
    simp only [List.cons_append, splitOnDelims, hb, Bool.false_eq_true, if_false]
    rw [show splitOnDelims (rest.append (d :: z)) = rest :: splitOnDelims z from ih2]

theorem peek_eq_take_max (body : List Nat) :
    body.take (min body.length MAX_LEN) = body.take MAX_LEN := by
  rcases Nat.le_total body.length MAX_LEN with h | h
  · rw [Nat.min_eq_left h, List.take_length, List.take_of_length_le h]
  · rw [Nat.min_eq_right h]

theorem take_seven_cons (d : Nat) (x : List Nat) : (d :: x).take 7 = d :: x.take 6 := rfl

/-- Decomposition of the peek buffer for a body of the shape
`_method` ++ delimiter ++ value ++ rest, when the value fits inside the
peek window: the first 14 bytes are `_method`, the delimiter, the value
and whatever part of `rest` still fits. -/
theorem take_max_shape (d : Nat) (v rest : List Nat) (hfit : v.length ≤ 6) :
    (fmBytes ++ d :: (v ++ rest)).take MAX_LEN
      = fmBytes ++ d :: (v ++ rest.take (6 - v.length)) := by
  have h14 : MAX_LEN = 14 := by decide
  have hlen7 : fmBytes.length = 7 := by decide
  rw [h14, List.take_append_eq_append_take, hlen7,
    List.take_of_length_le (by rw [hlen7]; omega)]
  show fmBytes ++ (d :: (v ++ rest)).take 7 = _
  rw [take_seven_cons, List.take_append_eq_append_take,
    List.take_of_length_le hfit]

/-- The central parsing lemma: on a body of the shape
`_method` ++ delimiter ++ value ++ rest — with the value free of
delimiters, short enough to fit in the peek window, and `rest` either
empty or opening with a delimiter — the inspector returns
`Method.tryFrom value` when the peek buffer is valid UTF-8 and `none`
otherwise. -/
theorem parse_first_field_shape (d : Nat) (hd : isDelim d = true) (v rest : List Nat)
    (hnd : ∀ x ∈ v, isDelim x = false) (hfit : v.length ≤ 6)
    (hrest : rest = [] ∨ ∃ d2 t, isDelim d2 = true ∧ rest = d2 :: t)
    (hmin : MIN_LEN ≤ (fmBytes ++ d :: (v ++ rest)).length) :
    parse_method_in_first_field (fmBytes ++ d :: (v ++ rest)) =
      if utf8Valid ((fmBytes ++ d :: (v ++ rest)).take MAX_LEN) then Method.tryFrom v
      else none := by
  have hfm : ∀ x ∈ fmBytes, isDelim x = false := by decide
  have hsplit2 :
      (splitOnDelims ((fmBytes ++ d :: (v ++ rest)).take MAX_LEN)).take 2 = [fmBytes, v] := by
    rw [take_max_shape d v rest hfit,
      splitOnDelims_append_delim fmBytes d _ hfm hd]
    rcases hrest with hre | ⟨d2, t, hd2, hre⟩
    · subst hre
      simp only [List.take_nil, List.append_nil]
      rw [splitOnDelims_no_delim v hnd]
      rfl
    · subst hre
      rcases Nat.eq_zero_or_pos (6 - v.length) with h0 | hpos
      · rw [h0]
        simp only [List.take_zero, List.append_nil]
        rw [splitOnDelims_no_delim v hnd]
        rfl
      · obtain ⟨k, hk⟩ : ∃ k, 6 - v.length = k + 1 := ⟨6 - v.length - 1, by omega⟩
        rw [hk, show List.take (k + 1) (d2 :: t) = d2 :: List.take k t from rfl,
          splitOnDelims_append_delim v d2 _ hnd hd2]
        rfl
  unfold parse_method_in_first_field
  rw [if_neg (by omega)]
  simp only [peek_eq_take_max]
  rw [hsplit2]
  show (if _ = true then if fmBytes = ascii "_method" then Method.tryFrom v else none else none) = _
  rw [if_pos (show fmBytes = ascii "_method" from rfl)]

example : ascii "GET" = [0x47, 0x45, 0x54] := by decide
example : MIN_LEN = 11 ∧ MAX_LEN = 14 := by decide
example : utf8Valid (ascii "_method=PUT") = true := by decide
example : utf8Valid [0x5F, 0xC3] = false := by decide
example : utf8Valid [0x5F, 0xC3, 0xA9] = true := by decide
example : splitOnDelims (ascii "_method=PUT&x") = [ascii "_method", ascii "PUT", ascii "x"] := by decide
example : parse_method_in_first_field (ascii "_method=PUT&first_name=john") = some Method.PUT := by decide
example : parse_method_in_first_field (ascii "_method=DELETE") = some Method.DELETE := by decide
example : parse_method_in_first_field (ascii "_method=HEAD") = some Method.HEAD := by decide
example : parse_method_in_first_field (ascii "first_name=john&_method=PUT") = none := by decide
example : parse_method_in_first_field (ascii "_method=OPTIONS") = some (Method.extensionM (ascii "OPTION")) := by decide
example : parse_method_in_first_field (ascii "_method=put") = some (Method.extensionM (ascii "put")) := by decide
example : parse_method_in_first_field (ascii "_method=&x=y") = none := by decide
example : parse_method_in_first_field (ascii "_method&PUT") = some Method.PUT := by decide
example : parse_method_in_first_field [] = none := by decide

theorem body_shape_length (d : Nat) (v rest : List Nat) :
    (fmBytes ++ d :: (v ++ rest)).length = 8 + v.length + rest.length := by
  have h7 : fmBytes.length = 7 := by decide
  simp [List.length_append, List.length_cons, h7]
  omega

/-- Restatement of the inspector with the `min` in the peek length
resolved: taking `min (length, MAX_LEN)` bytes is taking `MAX_LEN`
bytes. -/
theorem parse_eq_take_max (body : List Nat) :
    parse_method_in_first_field body
      = if body.length < MIN_LEN then none
        else if utf8Valid (body.take MAX_LEN) then
          match (splitOnDelims (body.take MAX_LEN)).take 2 with
          | [name, value] =>
            if name = ascii "_method" then Method.tryFrom value else none
          | _ => none
        else none := by
  unfold parse_method_in_first_field
  rw [peek_eq_take_max]

/-- Claim C1 (amended): for every body whose first field is exactly
`_method=<M>` with `<M>` the token of a standard method of at most 6
letters (GET, POST, PUT, PATCH, DELETE, HEAD, TRACE), where the field is
followed by `&` or by the end of the body and the peek window (the first
`min(length, MAX_LEN)` bytes) is valid UTF-8, the inspector
`parse_method_in_first_field` returns `some M`.  The `rest = []` case
covers the boundary bodies of length exactly `MIN_LEN` (`_method=PUT`)
and exactly `MAX_LEN` (`_method=DELETE`), which are read in full. -/
theorem parse_first_field_std_method (m : Method) (hm : m ∈ shortStd)
    (rest : List Nat) (hrest : rest = [] ∨ ∃ t, rest = 0x26 :: t)
    (hutf : utf8Valid ((fmBytes ++ 0x3D :: (stdToken m ++ rest)).take MAX_LEN) = true) :
    parse_method_in_first_field (fmBytes ++ 0x3D :: (stdToken m ++ rest)) = some m := by
  have hrest2 : rest = [] ∨ ∃ d2 t, isDelim d2 = true ∧ rest = d2 :: t := by
    rcases hrest with h | ⟨t, h⟩
    · exact Or.inl h
    · exact Or.inr ⟨0x26, t, by decide, h⟩
  have h11 : MIN_LEN = 11 := by decide
  have hminGen : ∀ v : List Nat, 3 ≤ v.length
      → MIN_LEN ≤ (fmBytes ++ 0x3D :: (v ++ rest)).length := by
    intro v hv
    rw [body_shape_length, h11]
    omega
  simp only [shortStd, List.mem_cons, List.not_mem_nil, or_false] at hm
  rcases hm with rfl | rfl | rfl | rfl | rfl | rfl | rfl <;>
  · rw [parse_first_field_shape 0x3D (by decide) _ rest (by decide) (by decide) hrest2
      (hminGen _ (by decide)), if_pos hutf]
    decide

/-- Claim C1 fails as stated: `_method=OPTIONS` is 15 bytes, one more
than `MAX_LEN`, so the peek truncates the value to `OPTION`, which parses
as an extension method rather than OPTIONS (and likewise for CONNECT);
moreover a multi-byte character cut in half by the 14-byte peek window
after a well-formed first field `_method=GET` followed by `&` makes the
inspection fail on invalid UTF-8 even though the whole body is valid
UTF-8. -/
theorem parse_first_field_std_method_cex :
    (parse_method_in_first_field (ascii "_method=OPTIONS")
        = some (Method.extensionM (ascii "OPTION"))
      ∧ parse_method_in_first_field (ascii "_method=OPTIONS") ≠ some Method.OPTIONS)
    ∧ parse_method_in_first_field (ascii "_method=CONNECT") ≠ some Method.CONNECT
    ∧ (parse_method_in_first_field (ascii "_method=GET&a" ++ [0xC3, 0xA9]) = none
      ∧ utf8Valid (ascii "_method=GET&a" ++ [0xC3, 0xA9]) = true) := by
  decide

/-- Witness for C1: the boundary bodies `_method=PUT` (exactly `MIN_LEN`
bytes) and `_method=DELETE` (exactly `MAX_LEN` bytes) parse to PUT and
DELETE respectively. -/
theorem parse_first_field_std_method_witness :
    parse_method_in_first_field (fmBytes ++ 0x3D :: (stdToken Method.PUT ++ []))
      = some Method.PUT
    ∧ parse_method_in_first_field (fmBytes ++ 0x3D :: (stdToken Method.DELETE ++ []))
      = some Method.DELETE :=
  ⟨parse_first_field_std_method Method.PUT (by decide) [] (Or.inl rfl) (by decide),
   parse_first_field_std_method Method.DELETE (by decide) [] (Or.inl rfl) (by decide)⟩

/-- Claim C2: for every body of at least `MIN_LEN` bytes, the peek buffer
holds exactly `min(remaining, MAX_LEN)` bytes, and the result of the
inspector equals its result on just the first `MAX_LEN` = 14 bytes of the
body — the outcome is independent of everything past position 14. -/
theorem parse_depends_only_on_peek (body : List Nat) (h : MIN_LEN ≤ body.length) :
    (body.take (min body.length MAX_LEN)).length = min body.length MAX_LEN
    ∧ parse_method_in_first_field body
        = parse_method_in_first_field (body.take MAX_LEN) := by
  have h11 : MIN_LEN = 11 := by decide
  have h14 : MAX_LEN = 14 := by decide
  rw [h11] at h
  constructor
  · rw [List.length_take, h14]
    omega
  · rw [parse_eq_take_max body, parse_eq_take_max (body.take MAX_LEN), h11, h14]
    have h1 : ¬(body.length < 11) := by omega
    have h2 : ¬((body.take (14 : Nat)).length < 11) := by
      rw [List.length_take]
      omega
    rw [if_neg h1, if_neg h2, List.take_take, Nat.min_self]

/-- Witness for C2 on the body `_method=PUT&first_name=john`. -/
theorem parse_depends_only_on_peek_witness :
    ((ascii "_method=PUT&first_name=john").take
        (min (ascii "_method=PUT&first_name=john").length MAX_LEN)).length
      = min (ascii "_method=PUT&first_name=john").length MAX_LEN
    ∧ parse_method_in_first_field (ascii "_method=PUT&first_name=john")
      = parse_method_in_first_field ((ascii "_method=PUT&first_name=john").take MAX_LEN) :=
  parse_depends_only_on_peek (ascii "_method=PUT&first_name=john") (by decide)

/-- Claim C3: every body with fewer than `MIN_LEN` = 11 remaining bytes
makes the inspector return `none`, regardless of its content. -/
theorem parse_short_body_none (body : List Nat) (h : body.length < MIN_LEN) :
    parse_method_in_first_field body = none := by
  unfold parse_method_in_first_field
  rw [if_pos h]

/-- Witness for C3: the 10-byte body `_method=PU` is rejected. -/
theorem parse_short_body_none_witness :
    (ascii "_method=PU").length < MIN_LEN
    ∧ parse_method_in_first_field (ascii "_method=PU") = none :=
  ⟨by decide, parse_short_body_none (ascii "_method=PU") (by decide)⟩

/-- Claim C4: the composed filter succeeds (extracting nothing) exactly
when the inspector returns `some` of the target method; every other case
(no parse, or a different method) produces the soft rejection
`warp::reject()` rather than a hard error.  In particular a body whose
first field is `_method=DELETE` is rejected by a filter targeting PUT
even though the inspector returned `some DELETE`. -/
theorem form_method_ok_iff (method : Method) (body : List Nat) :
    (form_method method body = Except.ok ()
      ↔ parse_method_in_first_field body = some method)
    ∧ (∀ e, form_method method body = Except.error e → e = Rejection.notApplicable)
    ∧ (form_method Method.PUT (ascii "_method=DELETE&first_name=john")
        = Except.error Rejection.notApplicable
      ∧ parse_method_in_first_field (ascii "_method=DELETE&first_name=john")
        = some Method.DELETE) := by
  refine ⟨?_, fun e _ => by cases e; rfl, by decide⟩
  unfold form_method
  cases hp : parse_method_in_first_field body with
  | none => simp
  | some fm =>
    by_cases hfm : fm = method
    · subst hfm
      simp
    · simp [hfm]

/-- Witness for C4: a filter targeting PUT rejects `_method=DELETE...`
with the soft rejection, and a body too short to parse is likewise only
softly rejected. -/
theorem form_method_ok_iff_witness :
    Rejection.notApplicable = Rejection.notApplicable
    ∧ form_method Method.PUT (ascii "_method=DELETE&first_name=john")
      = Except.error Rejection.notApplicable :=
  ⟨(form_method_ok_iff Method.PUT (ascii "xy")).2.1 Rejection.notApplicable (by decide),
   (form_method_ok_iff Method.PUT (ascii "_method=DELETE&first_name=john")).2.2.1⟩

/-- Claim C5: whenever the first `=`/`&`-delimited segment of the peek
window is not the literal `_method`, the inspector returns `none`: a
`_method` field after the first field is never detected. -/
theorem parse_nonfirst_field_none (body : List Nat)
    (h : (splitOnDelims (body.take MAX_LEN)).headI ≠ ascii "_method") :
    parse_method_in_first_field body = none := by
  unfold parse_method_in_first_field
  split
  · rfl
  · simp only [peek_eq_take_max]
    cases hs : splitOnDelims (body.take MAX_LEN) with
    | nil => simp [hs]
    | cons s ss =>
      rw [hs, List.headI_cons] at h
      cases ss with
      | nil => simp [hs]
      | cons s2 ss2 => simp [hs, h]

/-- Witness for C5 on the body `first_name=john&_method=PUT`. -/
theorem parse_nonfirst_field_none_witness :
    parse_method_in_first_field (ascii "first_name=john&_method=PUT") = none :=
  parse_nonfirst_field_none (ascii "first_name=john&_method=PUT") (by decide)

/-- Claim C6: for every body of at least `MIN_LEN` bytes whose peek
window is not valid UTF-8, the inspector returns `none` — rejection, not
partial recovery. -/
theorem parse_invalid_utf8_none (body : List Nat) (hlen : MIN_LEN ≤ body.length)
    (h : utf8Valid (body.take MAX_LEN) = false) :
    parse_method_in_first_field body = none := by
  unfold parse_method_in_first_field
  rw [if_neg (by omega)]
  simp only [peek_eq_take_max]
  rw [h]
  rfl

/-- Witness for C6: the 15-byte body `_method=PUT&x` followed by the two
UTF-8 bytes of a 2-byte character is valid UTF-8 as a whole, but the
14-byte peek window cuts the character in half, so the inspector returns
`none`. -/
theorem parse_invalid_utf8_none_witness :
    utf8Valid (ascii "_method=PUT&x" ++ [0xC3, 0xA9]) = true
    ∧ utf8Valid ((ascii "_method=PUT&x" ++ [0xC3, 0xA9]).take MAX_LEN) = false
    ∧ parse_method_in_first_field (ascii "_method=PUT&x" ++ [0xC3, 0xA9]) = none :=
  ⟨by decide, by decide,
   parse_invalid_utf8_none (ascii "_method=PUT&x" ++ [0xC3, 0xA9]) (by decide) (by decide)⟩

/-- Claim C7: the inspector is total and never panics: with the panic of
the bounded copy made explicit (`parseChecked`), every input — empty,
binary, anything — takes the normal-return path and agrees with
`parse_method_in_first_field`; the out-of-bounds branch of
`copy_to_slice` is unreachable since the peek buffer holds
`min(remaining, MAX_LEN) ≤ remaining` bytes. -/
theorem parse_never_panics (body : List Nat) :
    parseChecked body = some (parse_method_in_first_field body) := by
  unfold parseChecked parse_method_in_first_field
  by_cases hl : body.length < MIN_LEN
  · rw [if_pos hl, if_pos hl]
  · rw [if_neg hl, if_neg hl]
    have hcopy : copy_to_slice body (min body.length MAX_LEN)
        = some (body.take (min body.length MAX_LEN)) := by
      unfold copy_to_slice
      rw [if_pos (Nat.min_le_left ..)]
    rw [hcopy]

/-- Claim C8: a body whose first field is `_method` with an empty value —
`_method=` followed directly by another delimiter, as in `_method=&x=y` —
makes the inspector return `none`: the empty second segment fails HTTP
method parsing. -/
theorem parse_empty_value_none (d : Nat) (hd : isDelim d = true) (rest : List Nat) :
    parse_method_in_first_field (ascii "_method=" ++ d :: rest) = none := by
  have h8 : ascii "_method=" ++ d :: rest
      = fmBytes ++ 0x3D :: (([] : List Nat) ++ d :: rest) := by
    have h9 : ascii "_method=" = fmBytes ++ [0x3D] := by decide
    rw [h9, List.append_assoc]
    rfl
  rw [h8]
  by_cases hlen : MIN_LEN ≤ (fmBytes ++ 0x3D :: (([] : List Nat) ++ d :: rest)).length
  · rw [parse_first_field_shape 0x3D (by decide) [] (d :: rest) (by simp) (by simp)
      (Or.inr ⟨d, rest, hd, rfl⟩) hlen]
    have ht : Method.tryFrom [] = none := by decide
    rw [ht]
    split <;> rfl
  · unfold parse_method_in_first_field
    rw [if_pos (by omega)]

/-- Witness for C8 on the body `_method=&x=y`. -/
theorem parse_empty_value_none_witness :
    parse_method_in_first_field (ascii "_method=&x=y") = none := by
  have h := parse_empty_value_none 0x26 (by decide) (ascii "x=y")
  have he : ascii "_method=" ++ 0x26 :: ascii "x=y" = ascii "_method=&x=y" := by decide
  rw [he] at h
  exact h

/-- Claim C9: since `=` and `&` are interchangeable delimiters in the
split, `_method` followed by `&` instead of `=` and then a method token
is still accepted: for a body of at least `MIN_LEN` bytes whose peek
window opens with `_method&<T>` — `<T>` a delimiter-free method token
fitting in the window, followed by a delimiter or the end of the body —
and is valid UTF-8, the inspector returns `some` of the parsed token. -/
theorem parse_amp_delimited_value (t : List Nat) (m : Method)
    (ht : Method.tryFrom t = some m) (hnd : ∀ x ∈ t, isDelim x = false)
    (hfit : t.length ≤ 6) (rest : List Nat)
    (hrest : rest = [] ∨ ∃ d2 tl, isDelim d2 = true ∧ rest = d2 :: tl)
    (hmin : MIN_LEN ≤ (fmBytes ++ 0x26 :: (t ++ rest)).length)
    (hutf : utf8Valid ((fmBytes ++ 0x26 :: (t ++ rest)).take MAX_LEN) = true) :
    parse_method_in_first_field (fmBytes ++ 0x26 :: (t ++ rest)) = some m := by
  rw [parse_first_field_shape 0x26 (by decide) t rest hnd hfit hrest hmin, if_pos hutf, ht]

/-- Witness for C9: the 11-byte body `_method&PUT` parses to PUT even
though `_method` itself carries no `=` value. -/
theorem parse_amp_delimited_value_witness :
    parse_method_in_first_field (ascii "_method&PUT") = some Method.PUT := by
  have h := parse_amp_delimited_value (ascii "PUT") Method.PUT (by decide) (by decide)
    (by decide) [] (Or.inl rfl) (by decide) (by decide)
  have he : fmBytes ++ 0x26 :: (ascii "PUT" ++ []) = ascii "_method&PUT" := by decide
  rw [he] at h
  exact h

/-- Claim C10: the value is parsed with `Method::try_from`, which accepts
any syntactically valid token: `_method=put` yields the extension method
`put`, which is not equal to PUT, so a filter targeting PUT rejects it;
and a non-standard token like `FOOBA` yields the extension method with
exactly those bytes. -/
theorem parse_extension_token :
    parse_method_in_first_field (ascii "_method=put")
      = some (Method.extensionM (ascii "put"))
    ∧ Method.extensionM (ascii "put") ≠ Method.PUT
    ∧ form_method Method.PUT (ascii "_method=put") = Except.error Rejection.notApplicable
    ∧ parse_method_in_first_field (ascii "_method=FOOBA")
      = some (Method.extensionM (ascii "FOOBA")) := by
  decide

end WarpFormMethod
